import Mathlib

/-!
A verification development for `ipums_data_prep.py`, a script that parses an
SPSS syntax file produced by an IPUMS extract and transcodes the matching
fixed-width raw data file into tab-delimited text.

The Python source is embedded shallowly:

* Python strings are Lean `String`s (the inputs of interest are ASCII, and we
  manipulate the underlying `List Char`); input files are lists of lines
  (each line given without its trailing newline, which none of the regular
  expressions or slices in the source can distinguish);
* the specific regular expressions used by the source are translated into
  deterministic character-level matchers (each pattern in the source is
  simple enough that greedy matching with the disjoint classes `\w`, `\s`,
  `\d` is equivalent to backtracking; the one genuinely greedy construct,
  `(.+)\"`, captures up to the *last* quote and is modelled that way);
* fallible Python operations (attribute access on a failed match, list index
  out of range, unbound local, dict key miss, `int()` on a non-numeral)
  become `Except PErr`;
* Python dicts used as output-file tables become association lists keyed by
  record type.
-/

/-- Python exception kinds the script can actually raise. -/
inductive PErr where
  | attributeError   -- `m.group(...)` when the match failed (`m` is `None`)
  | indexError       -- list index out of range
  | nameError        -- local variable referenced before assignment
  | keyError         -- dict lookup miss
  | valueError       -- `int()` applied to a non-numeral
deriving DecidableEq, Repr

/-- Python's `\s` for ASCII strings: space, tab, newline, CR, VT, FF. -/
def isPySpace (c : Char) : Bool :=
  c == ' ' || c == '\t' || c == '\n' || c == '\x0d' || c == '\x0b' || c == '\x0c'

/-- Python's `\w` for ASCII strings: letters, digits, underscore. -/
def isPyWord (c : Char) : Bool :=
  c.isAlphanum || c == '_'

/-- Is the pattern a prefix of the character list? -/
def leadsWith : List Char → List Char → Bool
  | [], _ => true
  | _ :: _, [] => false
  | p :: ps, c :: cs => p == c && leadsWith ps cs

/-- Does the character list contain the pattern as a contiguous sublist?
Models `re.search` with a literal pattern. -/
def hasSub (pat : List Char) : List Char → Bool
  | [] => leadsWith pat []
  | l@(_ :: rest) => leadsWith pat l || hasSub pat rest

/-- `re.search(pat, line)` for the literal patterns used by the source. -/
def containsLit (line pat : String) : Bool :=
  hasSub pat.data line.data

/-- `re.match("\s*\.", line)`: optional leading whitespace then a period. -/
def matchDot (line : String) : Bool :=
  match line.data.dropWhile isPySpace with
  | '.' :: _ => true
  | _ => false

/-- Numeric value of a nonempty digit string (`int()` on a `\d+` group). -/
def natOfDigits (l : List Char) : Nat :=
  l.foldl (fun n c => 10 * n + (c.toNat - '0'.toNat)) 0

/-- `int(s)` on an arbitrary string: `none` models a `ValueError`.  The
strings this is applied to are regex `\d*` groups, so only the nonempty
all-digit case succeeds (Python's other accepted forms — signs, surrounding
whitespace — cannot occur in a `\d*` group). -/
def pyInt (s : String) : Option Nat :=
  if s.data ≠ [] ∧ s.data.all Char.isDigit then some (natOfDigits s.data) else none

/-- The capture of `(.+)\"` applied at the head of `l`: the (nonempty) text up
to the last quote of `l`, or `none` when no such quote exists. -/
def greedyQuote (l : List Char) : Option (List Char) :=
  match l.reverse.dropWhile (fun c => !(c == '"')) with
  | '"' :: restRev => if restRev.isEmpty then none else some restRev.reverse
  | _ => none

/-- `re.match("\s*(\w+)\s+(\d+)\-?(\d*)\s*\(?(\w*)\)?", line)`: the variable
declaration line of a `data list` block.  Returns
(name, startpos, optional endpos, flag); the flag group may be empty. -/
def matchVarDecl (line : String) : Option (String × Nat × Option Nat × String) :=
  let l := line.data.dropWhile isPySpace
  let nm := l.takeWhile isPyWord
  if nm.isEmpty then none else
  let r1 := l.dropWhile isPyWord
  if (r1.takeWhile isPySpace).isEmpty then none else
  let r2 := r1.dropWhile isPySpace
  let sp := r2.takeWhile Char.isDigit
  if sp.isEmpty then none else
  let r3 := r2.dropWhile Char.isDigit
  let (epOpt, r5) :=
    match r3 with
    | '-' :: r4 =>
      let ds := r4.takeWhile Char.isDigit
      ((if ds.isEmpty then none else some (natOfDigits ds)), r4.dropWhile Char.isDigit)
    | _ => (none, r3)
  let r6 := r5.dropWhile isPySpace
  let r7 := match r6 with | '(' :: t => t | _ => r6
  let flag := r7.takeWhile isPyWord
  some (String.mk nm, natOfDigits sp, epOpt, String.mk flag)

/-- `re.match("\s*(\w+)\s+\"(.+)\"", line)`: a variable-label line. -/
def matchLabelLine (line : String) : Option (String × String) :=
  let l := line.data.dropWhile isPySpace
  let nm := l.takeWhile isPyWord
  if nm.isEmpty then none else
  let r1 := l.dropWhile isPyWord
  if (r1.takeWhile isPySpace).isEmpty then none else
  match r1.dropWhile isPySpace with
  | '"' :: r2 => (greedyQuote r2).map (fun mid => (String.mk nm, String.mk mid))
  | _ => none

/-- One attempt of `\s*/record\s*\=\s*(\d+)\-?(\d*)` at a fixed position:
requires `/record`, optional whitespace, `=`, optional whitespace, digits,
then an optional `-digits` range end. -/
def tryRecordAt (l : List Char) : Option (String × String) :=
  if leadsWith "/record".data l then
    match (l.drop 7).dropWhile isPySpace with
    | '=' :: r2 =>
      let r3 := r2.dropWhile isPySpace
      let g1 := r3.takeWhile Char.isDigit
      if g1.isEmpty then none else
      let r4 := r3.dropWhile Char.isDigit
      let g2 := match r4 with | '-' :: r5 => r5.takeWhile Char.isDigit | _ => []
      some (String.mk g1, String.mk g2)
    | _ => none
  else none

/-- Scan all start positions, leftmost match first. -/
def goRecordSpec : List Char → Option (String × String)
  | [] => none
  | l@(_ :: rest) =>
    match tryRecordAt l with
    | some r => some r
    | none => goRecordSpec rest

/-- `re.search("\s*/record\s*\=\s*(\d+)\-?(\d*)", line)`, groups 1 and 2. -/
def searchRecordSpec (line : String) : Option (String × String) :=
  goRecordSpec line.data

/-- One attempt of `record type\s+\"?(\w+)\"?` at a fixed position. -/
def tryRectypeAt (l : List Char) : Option String :=
  if leadsWith "record type".data l then
    let r1 := l.drop 11
    if (r1.takeWhile isPySpace).isEmpty then none else
    let r2 := r1.dropWhile isPySpace
    let r3 := match r2 with | '"' :: t => t | _ => r2
    let w := r3.takeWhile isPyWord
    if w.isEmpty then none else some (String.mk w)
  else none

/-- Scan all start positions, leftmost match first. -/
def goRectype : List Char → Option String
  | [] => none
  | l@(_ :: rest) =>
    match tryRectypeAt l with
    | some r => some r
    | none => goRectype rest

/-- `re.search("record type\s+\"?(\w+)\"?", line)`, group 1. -/
def searchRectype (line : String) : Option String :=
  goRectype line.data

/-- `re.match("\s*\/(\w+)", line)`: a `/varname` line of `value labels`. -/
def matchSlashVar (line : String) : Option String :=
  match line.data.dropWhile isPySpace with
  | '/' :: r =>
    let w := r.takeWhile isPyWord
    if w.isEmpty then none else some (String.mk w)
  | _ => none

/-- `re.match("\s*\+\s*\"(.+)\"", line)`: a continuation line. -/
def matchContinuation (line : String) : Option String :=
  match line.data.dropWhile isPySpace with
  | '+' :: r =>
    match r.dropWhile isPySpace with
    | '"' :: r2 => (greedyQuote r2).map String.mk
    | _ => none
  | _ => none

/-- `re.match("\s*\"?(\w+)\"?\s+\"(.+)\"", line)`: a value/label line. -/
def matchValueLabel (line : String) : Option (String × String) :=
  let l := line.data.dropWhile isPySpace
  let l1 := match l with | '"' :: t => t | _ => l
  let w := l1.takeWhile isPyWord
  if w.isEmpty then none else
  let r1 := l1.dropWhile isPyWord
  let r2 := match r1 with | '"' :: t => t | _ => r1
  if (r2.takeWhile isPySpace).isEmpty then none else
  match r2.dropWhile isPySpace with
  | '"' :: r3 => (greedyQuote r3).map (fun mid => (String.mk w, String.mk mid))
  | _ => none

/-! ## The variable specification data model -/

/-- One entry of `varspec['vars']`.  The source stores the regex groups
(digit strings) and applies `int()` at each use; since the parser only ever
stores nonempty digit strings for `startpos`, `endpos` and `digits`, we store
the numeral directly.  `alpha` models presence of the `'alpha'` key and
`digits` presence of the `'digits'` key. -/
structure PyVar where
  name : String
  startpos : Nat
  endpos : Nat
  rectype : Option String := none
  label : Option String := none
  alpha : Bool := false
  digits : Option Nat := none
deriving DecidableEq, Repr

/-- A record-type key of `varspec['rectypes']`: the placeholder `0` inserted
for flat layouts (a Python `int`, distinct from every string key), or a
record-type code string from the syntax file. -/
inductive RK where
  | dflt
  | code (s : String)
deriving DecidableEq, Repr

/-- The parsed variable specification (`varspec` dict).  The record-type
column bounds are kept as the raw regex-group strings, exactly as the source
stores them (`int()` is applied only inside `save_data`); `none` models the
dict key being absent. -/
structure Varspec where
  mixed : Bool
  rectypes : List RK
  rectype_startpos : Option String := none
  rectype_endpos : Option String := none
  vars : List PyVar
deriving DecidableEq, Repr

/-- `d[k] = True` on a Python dict used as a set: inserts the key if absent
(insertion order preserved, no duplicates). -/
def addKey (l : List RK) (k : RK) : List RK :=
  if k ∈ l then l else l ++ [k]

/-! ## `get_varspec`: the layout parser -/

/-- The `status` variable of the first scanning loop of `get_varspec`. -/
inductive VStat where
  | wait
  | mixedSt    -- "mixed"
  | rectypeSt  -- "rectype"
  | dataList   -- "data list"
  | doneSt     -- "done"
deriving DecidableEq, Repr

/-- The mutable state of the first scanning loop of `get_varspec`. -/
structure P1State where
  status : VStat := .wait
  mixed : Bool := false
  rectypes : List RK := []
  rectype_startpos : Option String := none
  rectype_endpos : Option String := none
  vars : List PyVar := []
  thisrec : Option String := none
deriving DecidableEq, Repr

/-- One iteration of the `data list` scanning loop of `get_varspec`
(statuses other than `done`, which the loop handles by breaking). -/
def p1Step (st : P1State) (line : String) : Except PErr P1State :=
  match st.status with
  | .wait =>
    if containsLit line "data list" then .ok { st with status := .dataList }
    else if containsLit line "file type mixed" then .ok { st with status := .mixedSt }
    else .ok st
  | .mixedSt =>
    if containsLit line "/record" then
      match searchRecordSpec line with
      | none => .error .attributeError
      | some (g1, g2) =>
        .ok { st with rectype_startpos := some g1, rectype_endpos := some g2,
                      mixed := true, status := .rectypeSt }
    else .ok st
  | .rectypeSt =>
    if containsLit line "record type" then
      match searchRectype line with
      | none => .error .attributeError
      | some r =>
        .ok { st with thisrec := some r, rectypes := addKey st.rectypes (RK.code r),
                      status := .wait }
    else if containsLit line "end file type" then .ok { st with status := .doneSt }
    else .ok st
  | .dataList =>
    if matchDot line then
      match st.thisrec with
      | none => .ok { st with status := .doneSt }
      | some _ => .ok { st with status := .rectypeSt }
    else
      match matchVarDecl line with
      | none => .error .attributeError
      | some (nm, sp, epOpt, flag) =>
        let var : PyVar :=
          { name := nm
            startpos := sp
            endpos := epOpt.getD sp
            rectype := st.thisrec
            alpha := flag == "a" || flag == "A"
            digits := if flag = "a" ∨ flag = "A" then none else pyInt flag }
        .ok { st with vars := st.vars ++ [var] }
  | .doneSt => .ok st

/-- The first loop of `get_varspec`: returns the final state together with
the lines the file iterator has not yet yielded (the loop's `break` consumes
the line that triggered it). -/
def p1Loop : P1State → List String → Except PErr (P1State × List String)
  | st, [] => .ok (st, [])
  | st, line :: rest =>
    if st.status = .doneSt then .ok (st, rest)
    else
      match p1Step st line with
      | .error e => .error e
      | .ok st' => p1Loop st' rest

/-- Attach a label to the first variable with the given name (the source
scans `varspec['vars']` linearly and breaks at the first match). -/
def attachLabel : List PyVar → String → String → List PyVar
  | [], _, _ => []
  | v :: rest, nm, lbl =>
    if v.name = nm then { v with label := some lbl } :: rest
    else v :: attachLabel rest nm lbl

/-- The second (`variable labels`) loop of `get_varspec`, with `status`
coded 0 = wait, 1 = in section, 2 = end. -/
def p2Loop : List PyVar → Nat → List String → Except PErr (List PyVar)
  | vars, _, [] => .ok vars
  | vars, status, line :: rest =>
    if status = 2 then .ok vars
    else if status = 0 then
      if containsLit line "variable labels" then p2Loop vars 1 rest
      else p2Loop vars 0 rest
    else
      if matchDot line then p2Loop vars 2 rest
      else
        match matchLabelLine line with
        | none => .error .attributeError
        | some (nm, lbl) => p2Loop (attachLabel vars nm lbl) 1 rest

/-- `get_varspec`: parse the `data list` / record-type declarations and the
`variable labels` section of the syntax file (given as its list of lines).
After the first loop, if no record types were registered the placeholder
key `0` is inserted. -/
def get_varspec (lines : List String) : Except PErr Varspec :=
  match p1Loop {} lines with
  | .error e => .error e
  | .ok (st, rest) =>
    let rts := if st.rectypes = [] then [RK.dflt] else st.rectypes
    match p2Loop st.vars 0 rest with
    | .error e => .error e
    | .ok vars' =>
      .ok { mixed := st.mixed, rectypes := rts,
            rectype_startpos := st.rectype_startpos,
            rectype_endpos := st.rectype_endpos, vars := vars' }

/-! ## Python string primitives used by the emitters and the transcoder -/

/-- Normalize a Python slice index to a position in `[0, n]`:
negative indices count from the end and clamp at 0. -/
def pyIdx (n : Nat) (i : Int) : Nat :=
  if i < 0 then ((n : Int) + i).toNat else min i.toNat n

/-- Python `s[a:b]`. -/
def pySlice (s : String) (a b : Int) : String :=
  String.mk ((s.data.take (pyIdx s.data.length b)).drop (pyIdx s.data.length a))

/-- Python `s.strip()`: remove leading and trailing whitespace. -/
def pyStrip (s : String) : String :=
  String.mk (((s.data.dropWhile isPySpace).reverse.dropWhile isPySpace).reverse)

/-- Python `s[:len(s)-2]` (for `len(s) < 2` the Python expression also
yields a prefix: `""` for length 0 and 1). -/
def pyChop (s : String) : String :=
  String.mk (s.data.take (s.data.length - 2))

/-- Python `s.replace(c, rep)` for a one-character pattern `c`: every
occurrence of the character is substituted. -/
def pyReplaceChar (s : String) (c : Char) (rep : String) : String :=
  String.mk (s.data.flatMap (fun a => if a = c then rep.data else [a]))

/-- `sanitize_text`: first replace tabs by the two characters `\t`, then
replace every backslash by two backslashes.  Both patterns of the source's
`str.replace` calls are single characters. -/
def sanitize_text (txtin : String) : String :=
  pyReplaceChar (pyReplaceChar txtin '\t' "\\t") '\\' "\\\\"

/-- The decimal rewrite of `save_data`:
`fld[:-int(digits)] + '.' + fld[-int(digits):]`.
For `d = 0` Python's `fld[:-0]` is `fld[:0] = ""` and `fld[-0:]` is the
whole string. -/
def decRewrite (fld : String) (d : Nat) : String :=
  (if d = 0 then "" else String.mk (fld.data.take (fld.data.length - d)))
    ++ "." ++
  (if d = 0 then fld else String.mk (fld.data.drop (fld.data.length - d)))

/-! ## `get_data_ddl` -/

/-- One column line of the create-table statement:
four spaces, the name padded to 24 characters, and the inferred type with a
trailing comma and newline.  `varlen` is computed in `int` arithmetic. -/
def colLine (v : PyVar) : String :=
  let varlen : Int := 1 + (v.endpos : Int) - (v.startpos : Int)
  "    " ++ v.name ++ String.mk (List.replicate (24 - v.name.length) ' ') ++
  (if v.alpha then "varchar(" ++ toString varlen ++ "),\n"
   else if v.digits.isSome then "double precision,\n"
   else if varlen > 9 then "bigint,\n"
   else "int,\n")

/-- The `for i, var in enumerate(varspec['vars'])` loop of `get_data_ddl`,
with the mutable `rectype` and `s` made explicit (`i` is the enumerate
index; only `i == 0` is ever tested). -/
def ddlLoop : List PyVar → Option String → String → Nat → String
  | [], _, s, _ => s
  | v :: rest, rt, s, i =>
    let (rt', s') :=
      match v.rectype with
      | some r =>
        match rt with
        | none => (some r, "create table " ++ r ++ " (\n")
        | some r0 =>
          if r0 ≠ r then (some r, pyChop s ++ "\n);\ncreate table " ++ r ++ " (\n")
          else (some r0, s)
      | none => (rt, if i = 0 then "create table ipumsdata (\n" else s)
    ddlLoop rest rt' (s' ++ colLine v) (i + 1)

/-- `get_data_ddl`: the create-table statement text. -/
def get_data_ddl (varspec : Varspec) : String :=
  pyChop (ddlLoop varspec.vars none "" 0) ++ "\n);\n"

/-! ## `get_valuelabels` -/

/-- `valspec[len(valspec)-1][2] += frag`: append to the label of the last
triple (callers establish nonemptiness). -/
def appendLastLabel : List (String × String × String) → String → List (String × String × String)
  | [], _ => []
  | [(a, b, c)], frag => [(a, b, c ++ frag)]
  | x :: y :: rest, frag => x :: appendLastLabel (y :: rest) frag

/-- The mutable state of `get_valuelabels`: `status` (0 = wait, 1 = in the
`value labels` section, 2 = done), the accumulated triples, and the
`varname` local (unbound until the first `/varname` line). -/
structure VLState where
  status : Nat := 0
  valspec : List (String × String × String) := []
  varname : Option String := none
deriving DecidableEq, Repr

/-- One iteration of the `get_valuelabels` loop for `status` 0 or 1
(the loop breaks before processing a line at status 2). -/
def vlStep (st : VLState) (line : String) : Except PErr VLState :=
  if st.status = 0 then
    if containsLit line "value labels" then .ok { st with status := 1 } else .ok st
  else
    if matchDot line then .ok { st with status := 2 }
    else if (matchSlashVar line).isSome then .ok { st with varname := matchSlashVar line }
    else
      match matchContinuation line with
      | some frag =>
        match st.valspec with
        | [] => .error .indexError
        | _ :: _ => .ok { st with valspec := appendLastLabel st.valspec frag }
      | none =>
        match matchValueLabel line with
        | none => .error .attributeError
        | some (value, value_label) =>
          match st.varname with
          | none => .error .nameError
          | some vn => .ok { st with valspec := st.valspec ++ [(vn, value, value_label)] }

/-- The scanning loop of `get_valuelabels`. -/
def vlLoop : VLState → List String → Except PErr (List (String × String × String))
  | st, [] => .ok st.valspec
  | st, line :: rest =>
    if st.status = 2 then .ok st.valspec
    else
      match vlStep st line with
      | .error e => .error e
      | .ok st' => vlLoop st' rest

/-- `get_valuelabels`: the ordered (variable, value, label) triples of the
`value labels` section. -/
def get_valuelabels (lines : List String) : Except PErr (List (String × String × String)) :=
  vlLoop {} lines

/-! ## `save_vars` and `save_valuelabels` -/

/-- One output line of `save_vars`: name, tab, sanitized label if any,
newline. -/
def varsLine (v : PyVar) : String :=
  v.name ++ "\t" ++ (match v.label with | some l => sanitize_text l | none => "") ++ "\n"

/-- `save_vars`, modelled as the list of lines written to the output file
(the file's content is their concatenation). -/
def save_vars (varspec : Varspec) : List String :=
  varspec.vars.foldl (fun acc v => acc ++ [varsLine v]) []

/-- Linear scan for the first variable with a given name. -/
def findVar : List PyVar → String → Option PyVar
  | [], _ => none
  | v :: rest, nm => if v.name = nm then some v else findVar rest nm

/-- `save_valuelabels`, modelled as the list of lines written: one line per
triple whose variable exists and is not alpha; triples of undeclared or
alpha variables are skipped. -/
def save_valuelabels (varspec : Varspec) (valspec : List (String × String × String)) :
    List String :=
  valspec.foldl
    (fun acc val =>
      match findVar varspec.vars val.1 with
      | none => acc
      | some v =>
        if v.alpha then acc
        else acc ++ [val.1 ++ "\t" ++ val.2.1 ++ "\t" ++ sanitize_text val.2.2 ++ "\n"])
    []

/-! ## `save_data`: the transcoder -/

/-- Lookup in an association list (a Python dict with those keys). -/
def assocGet : List (RK × List String × Nat) → RK → Option (List String × Nat)
  | [], _ => none
  | (k, v) :: rest, k' => if k' = k then some v else assocGet rest k'

/-- `d[k] = v` on a Python dict: replace the value if the key exists,
otherwise append the binding. -/
def assocSet : List (RK × List String × Nat) → RK → (List String × Nat) →
    List (RK × List String × Nat)
  | [], k, v => [(k, v)]
  | (k0, v0) :: rest, k, v =>
    if k = k0 then (k, v) :: rest else (k0, v0) :: assocSet rest k v

/-- The field value of one variable on one raw line:
`line[int(startpos)-1 : int(endpos)].strip()`, then the decimal rewrite if
the variable has implied decimals. -/
def fldValue (line : String) (v : PyVar) : String :=
  let fld := pyStrip (pySlice line ((v.startpos : Int) - 1) (v.endpos : Int))
  match v.digits with
  | some d => decRewrite fld d
  | none => fld

/-- Should this variable be emitted for this record?  In a flat run every
variable is; in a hierarchical run `var['rectype'] == rectype` is tested
(comparing a string key with the placeholder `0` is `False` in Python). -/
def recMatch (mixed : Bool) (rt : RK) (v : PyVar) : Bool :=
  !mixed ||
    (match v.rectype, rt with
     | some r, RK.code c => r == c
     | _, _ => false)

/-- The `for var in varspec['vars']` loop of `save_data`: build the record's
field list.  In a hierarchical run, a variable without a `rectype` key makes
the lookup `var['rectype']` raise `KeyError`. -/
def buildRec (mixed : Bool) (line : String) (rt : RK) :
    List PyVar → Except PErr (List String)
  | [] => .ok []
  | v :: rest =>
    if mixed && v.rectype.isNone then .error .keyError
    else
      match buildRec mixed line rt rest with
      | .error e => .error e
      | .ok flds => .ok (if recMatch mixed rt v then fldValue line v :: flds else flds)

/-- Read the record type of one raw line: slice the discriminator columns
and strip.  Missing dict keys and non-numeral bounds raise. -/
def lineRectype (vs : Varspec) (line : String) : Except PErr RK :=
  if vs.mixed then
    match vs.rectype_startpos with
    | none => .error .keyError
    | some sps =>
      match pyInt sps with
      | none => .error .valueError
      | some sp =>
        match vs.rectype_endpos with
        | none => .error .keyError
        | some eps =>
          match pyInt eps with
          | none => .error .valueError
          | some ep => .ok (RK.code (pyStrip (pySlice line ((sp : Int) - 1) (ep : Int))))
  else .ok RK.dflt

/-- Per-line processing of `save_data`: record type, then the tab-joined
record for that record type. -/
def processLine (vs : Varspec) (line : String) : Except PErr (RK × String) :=
  match lineRectype vs line with
  | .error e => .error e
  | .ok rt =>
    match buildRec vs.mixed line rt vs.vars with
    | .error e => .error e
    | .ok rec => .ok (rt, String.intercalate "\t" rec)

/-- The transcoder's running state: `n` records read, and per record type
the lines written and the `nout` counter (`fout` and `nout` are dicts with
the same keys; we pair their values). -/
structure DState where
  n : Nat
  files : List (RK × List String × Nat)
deriving DecidableEq, Repr

/-- Write the current record to the appropriate outfile: a record type that
is not a key of `fout` raises `KeyError`. -/
def stepData (vs : Varspec) (line : String) (st : DState) : Except PErr DState :=
  match processLine vs line with
  | .error e => .error e
  | .ok (rt, outline) =>
    match assocGet st.files rt with
    | none => .error .keyError
    | some (ls, k) =>
      .ok ⟨st.n + 1, assocSet st.files rt (ls ++ [outline], k + 1)⟩

/-- The main loop of `save_data`: process each line, stopping early when
`n == int(maxrows)` (after writing that record). -/
def saveDataLoop (vs : Varspec) (maxrows : Nat) : DState → List String → Except PErr DState
  | st, [] => .ok st
  | st, line :: rest =>
    match stepData vs line st with
    | .error e => .error e
    | .ok st' => if st'.n = maxrows then .ok st' else saveDataLoop vs maxrows st' rest

/-- Open one (empty) outfile per record type, counters zeroed. -/
def initFiles (rectypes : List RK) : List (RK × List String × Nat) :=
  rectypes.foldl (fun m rt => assocSet m rt ([], 0)) []

/-- `save_data`: transcode the raw lines (the decompressed gzip stream,
one string per line), with `maxrows` already converted by `int()`
(0 means no cap). -/
def save_data (vs : Varspec) (lines : List String) (maxrows : Nat) : Except PErr DState :=
  saveDataLoop vs maxrows ⟨0, initFiles vs.rectypes⟩ lines

/-! ## The command dispatcher (`__main__`) -/

/-- The observable outcome of one invocation: the usage message with a clean
exit, a completed mode carrying what it computed and the output path(s) it
would write, the usage message printed after the syntax file was already
parsed (unrecognized mode), or an uncaught exception. -/
inductive MainResult where
  | usageExit
  | ranDdl (ddl : String)
  | ranVars (outLines : List String) (outfile : String)
  | ranVals (outLines : List String) (outfile : String)
  | ranData (res : DState) (infile outfile : String)
  | badMode
  | crash (e : PErr)
deriving DecidableEq, Repr

/-- The `__main__` block.  `argv` is `sys.argv`; the syntax file named by
`argv[2]` has content `syntaxLines` and the gzipped data file content
`dataLines`.  `sys.argv[k]` beyond the end raises `IndexError`; Python
evaluates call arguments left to right, so the file parses happen before a
missing later argument is noticed. -/
def mainDispatch (argv syntaxLines dataLines : List String) : MainResult :=
  if argv.length < 3 then .usageExit
  else
    match get_varspec syntaxLines with
    | .error e => .crash e
    | .ok vs =>
      let mode := argv.getD 1 ""
      if mode = "ddl" then .ranDdl (get_data_ddl vs)
      else if mode = "vars" then
        match argv.get? 3 with
        | none => .crash .indexError
        | some o => .ranVars (save_vars vs) o
      else if mode = "vals" then
        match get_valuelabels syntaxLines with
        | .error e => .crash e
        | .ok vals =>
          match argv.get? 3 with
          | none => .crash .indexError
          | some o => .ranVals (save_valuelabels vs vals) o
      else if mode = "data" then
        match argv.get? 3 with
        | none => .crash .indexError
        | some infile =>
          match argv.get? 4 with
          | none => .crash .indexError
          | some outfile =>
            match (if argv.length = 6 then pyInt (argv.getD 5 "") else some 0) with
            | none => .crash .valueError
            | some mr =>
              match save_data vs dataLines mr with
              | .error e => .crash e
              | .ok st => .ranData st infile outfile
      else .badMode

/-! ## Basic string lemmas -/

theorem strData_append (a b : String) : (a ++ b).data = a.data ++ b.data := rfl

theorem strExt {a b : String} (h : a.data = b.data) : a = b := by
  cases a; cases b; exact congrArg String.mk h

theorem strAppend_assoc (a b c : String) : (a ++ b) ++ c = a ++ (b ++ c) := by
  apply strExt; simp [strData_append]

theorem strAppend_nilR (a : String) : a ++ "" = a := by
  apply strExt; simp [strData_append]

/-! ## C9 / C4: sanitization -/

/-- The net single-character effect of the two successive `replace` calls of
`sanitize_text`: a tab becomes backslash-backslash-`t` (the backslash
introduced for the tab is itself doubled by the second replace), a backslash
becomes two backslashes, anything else is unchanged. -/
def sanChar (a : Char) : List Char :=
  if a = '\t' then ['\\', '\\', 't']
  else if a = '\\' then ['\\', '\\'] else [a]

theorem san_flatMap (l : List Char) :
    ((l.flatMap (fun a => if a = '\t' then ['\\', 't'] else [a])).flatMap
        (fun a => if a = '\\' then ['\\', '\\'] else [a]))
      = l.flatMap sanChar := by
  induction l with
  | nil => rfl
  | cons a l ih =>
    by_cases h1 : a = '\t'
    · subst h1; simp only [List.flatMap_cons, List.flatMap_append, ih, sanChar]; rfl
    · by_cases h2 : a = '\\'
      · subst h2; simp only [List.flatMap_cons, List.flatMap_append, ih, sanChar]; rfl
      · simp only [List.flatMap_cons, List.flatMap_append, ih, sanChar, if_neg h1, if_neg h2]
        rfl

/-- C9: sanitization is not idempotent: a label consisting of one backslash
sanitizes to two backslashes, and sanitizing again yields four. -/
theorem sanitize_text_not_idempotent :
    ∃ s : String, sanitize_text (sanitize_text s) ≠ sanitize_text s :=
  ⟨"\\", by decide⟩

/-- C4, counterexample: the claim predicts that a label holding one tab and
one backslash is emitted with the tab as exactly two characters and the
backslash as exactly two characters, i.e. `"\t\\"` would become the
four-character string `"\\t\\\\"`.  In fact the backslash introduced for the
tab is doubled again by the second replace, so the output is the
five-character string `"\\\\t\\\\"`. -/
theorem sanitize_text_tab_three_chars :
    sanitize_text "\t\\" = "\\\\t\\\\" ∧ sanitize_text "\t\\" ≠ "\\t\\\\" :=
  ⟨by decide, by decide⟩

/-- C4, amended: `sanitize_text` acts per character; a tab is emitted as the
THREE characters backslash-backslash-`t` (because the backslash escape runs
after the tab escape and doubles the backslash just introduced), an original
backslash as two backslashes, and every other character unchanged. -/
theorem sanitize_text_char_map (s : String) :
    sanitize_text s = String.mk (s.data.flatMap sanChar) := by
  have h : sanitize_text s
      = String.mk ((s.data.flatMap (fun a => if a = '\t' then ['\\', 't'] else [a])).flatMap
          (fun a => if a = '\\' then ['\\', '\\'] else [a])) := rfl
  rw [h, san_flatMap]

/-- C3, counterexample: implied decimals `d = 0` is accepted by the parser
(flag `(0)` is a digit string), and the rewrite `fld[:-0] + '.' + fld[-0:]`
then yields `"." + fld` — the decimal point lands at the LEFT end, not zero
digits from the right end (which would be `fld + "."`). -/
theorem decRewrite_zero_cex :
    decRewrite "12345" 0 = ".12345" ∧ (".12345" : String) ≠ "12345" ++ "." ∧
    get_varspec ["data list", "V1 1-5 (0)", "."]
      = .ok { mixed := false, rectypes := [RK.dflt],
              vars := [{ name := "V1", startpos := 1, endpos := 5, digits := some 0 }] } :=
  ⟨rfl, by decide, by rfl⟩

/-- C3, amended: for every variable with `impliedDecimals = d ≥ 1` and every
field with at least `d` characters, the rewrite splits the field as
`a ++ b` with `|b| = d` and produces `a ++ "." ++ b`: the decimal point is
inserted `d` digits from the right end. -/
theorem decRewrite_inserts_point (s : String) (d : Nat) (h1 : 1 ≤ d)
    (h2 : d ≤ s.length) :
    ∃ a b : String, s = a ++ b ∧ b.length = d ∧ decRewrite s d = a ++ "." ++ b := by
  refine ⟨String.mk (s.data.take (s.data.length - d)),
          String.mk (s.data.drop (s.data.length - d)), ?_, ?_, ?_⟩
  · exact strExt (by simp [strData_append])
  · have hs : s.length = s.data.length := rfl
    simp only [String.length]
    rw [List.length_drop]
    omega
  · have hd : ¬ d = 0 := by omega
    simp only [decRewrite, if_neg hd]

/-- C3, witness. -/
theorem decRewrite_inserts_point_witness :
    decRewrite "12345" 2 = "123.45" ∧
    ∃ a b : String, "12345" = a ++ b ∧ b.length = 2 ∧ decRewrite "12345" 2 = a ++ "." ++ b :=
  ⟨rfl, decRewrite_inserts_point "12345" 2 (by decide) (by decide)⟩

/-! ## Association-list and transcoder helper lemmas -/

theorem assocGet_assocSet (m : List (RK × List String × Nat)) (k k' : RK)
    (v : List String × Nat) :
    assocGet (assocSet m k v) k' = if k' = k then some v else assocGet m k' := by
  induction m with
  | nil => by_cases h : k' = k <;> simp [assocSet, assocGet, h]
  | cons p rest ih =>
    obtain ⟨k0, v0⟩ := p
    by_cases h1 : k = k0
    · subst h1
      by_cases h2 : k' = k <;> simp [assocSet, assocGet, h2]
    · simp only [assocSet, if_neg h1, assocGet]
      by_cases h2 : k' = k0
      · subst h2
        have hk : ¬(k' = k) := fun h => h1 h.symm
        simp [hk]
      · simp [h2, ih]

theorem assocGet_initFiles (rts : List RK) (rt : RK) :
    assocGet (initFiles rts) rt = if rt ∈ rts then some ([], 0) else none := by
  suffices h : ∀ (acc : List (RK × List String × Nat)),
      assocGet (rts.foldl (fun m r => assocSet m r ([], 0)) acc) rt
        = if rt ∈ rts then some ([], 0) else assocGet acc rt by
    simpa [initFiles, assocGet] using h []
  induction rts with
  | nil => intro acc; simp
  | cons r rts ih =>
    intro acc
    simp only [List.foldl_cons, ih, assocGet_assocSet]
    by_cases h1 : rt ∈ rts
    · simp [h1, List.mem_cons]
    · by_cases h2 : rt = r <;> simp [h1, h2, List.mem_cons]

/-- In a flat run the record loop never raises and keeps every variable. -/
theorem buildRec_flat (line : String) (rt : RK) (vars : List PyVar) :
    buildRec false line rt vars = .ok (vars.map (fldValue line)) := by
  induction vars with
  | nil => rfl
  | cons v rest ih => simp [buildRec, ih, recMatch]

/-- In a hierarchical run the record loop succeeds whenever every variable
has a `rectype` key. -/
theorem buildRec_mixed_ok (line : String) (rt : RK) (vars : List PyVar)
    (h : ∀ v ∈ vars, v.rectype.isSome) :
    ∃ flds, buildRec true line rt vars = .ok flds := by
  induction vars with
  | nil => exact ⟨[], rfl⟩
  | cons v rest ih =>
    obtain ⟨flds, hf⟩ := ih (fun v hv => h v (List.mem_cons_of_mem _ hv))
    have hv : v.rectype.isSome := h v (List.mem_cons_self _ _)
    refine ⟨if recMatch true rt v then fldValue line v :: flds else flds, ?_⟩
    simp [buildRec, hf, Option.isNone_iff_eq_none]
    intro hnone
    rw [hnone] at hv
    simp at hv

theorem stepData_flat (vs : Varspec) (line : String) (st : DState)
    (hm : vs.mixed = false) (hk : (assocGet st.files RK.dflt).isSome) :
    ∃ st', stepData vs line st = .ok st' ∧ (assocGet st'.files RK.dflt).isSome ∧
      st'.n = st.n + 1 := by
  obtain ⟨⟨ls, c⟩, hget⟩ := Option.isSome_iff_exists.mp hk
  refine ⟨⟨st.n + 1, assocSet st.files RK.dflt
            (ls ++ [String.intercalate "\t" (vs.vars.map (fldValue line))], c + 1)⟩, ?_, ?_, rfl⟩
  · simp [stepData, processLine, lineRectype, hm, buildRec_flat, hget]
  · simp [assocGet_assocSet]

theorem saveDataLoop_flat_total (vs : Varspec) (k : Nat) (hm : vs.mixed = false) :
    ∀ (lines : List String) (st : DState), (assocGet st.files RK.dflt).isSome →
      ∃ st', saveDataLoop vs k st lines = .ok st' := by
  intro lines
  induction lines with
  | nil => exact fun st _ => ⟨st, rfl⟩
  | cons line rest ih =>
    intro st hk
    obtain ⟨st1, hstep, hk1, _⟩ := stepData_flat vs line st hm hk
    by_cases hn : st1.n = k
    · exact ⟨st1, by simp [saveDataLoop, hstep, hn]⟩
    · obtain ⟨st', hloop⟩ := ih st1 hk1
      exact ⟨st', by simp [saveDataLoop, hstep, hn, hloop]⟩

/-- C1, counterexample: a raw line shorter than the variable's `endPos`
(here: the empty line against `V1 1-6 (2)`) does NOT raise anything — the
transcode completes normally and writes the malformed field `"."`
(the decimal rewrite of the empty sliced field). -/
theorem save_data_short_line_no_error :
    save_data { mixed := false, rectypes := [RK.dflt],
                vars := [{ name := "V1", startpos := 1, endpos := 6, digits := some 2 }] }
        [""] 0
      = .ok ⟨1, [(RK.dflt, ["."], 1)]⟩ := by rfl

/-- C1, amended: the per-line processing of `save_data` is total — Python
slicing is lenient, so a field with fewer than `d` digits is not an error:
for `d ≥ 1` the emitted field is `"."` prefixed to whatever characters the
slice produced (an empty field becomes `"."`), and a flat transcode always
completes with `.ok`. -/
theorem save_data_short_field_lenient :
    (∀ (fld : String) (d : Nat), 1 ≤ d → fld.length < d →
       decRewrite fld d = "." ++ fld) ∧
    (∀ (vs : Varspec) (lines : List String) (k : Nat), vs.mixed = false →
       RK.dflt ∈ vs.rectypes → ∃ st, save_data vs lines k = .ok st) := by
  constructor
  · intro fld d h1 h2
    have hd : ¬ d = 0 := by omega
    have hlen : fld.length = fld.data.length := rfl
    have ht : fld.data.length - d = 0 := by omega
    have ht2 : fld.length - d = 0 := by omega
    apply strExt
    simp [decRewrite, hd, ht, ht2, strData_append]
  · intro vs lines k hm hmem
    apply saveDataLoop_flat_total vs k hm lines
    rw [assocGet_initFiles, if_pos hmem]
    rfl

/-- C1, witness. -/
theorem save_data_short_field_lenient_witness :
    decRewrite "" 2 = "." ++ "" ∧
    (∃ st, save_data { mixed := false, rectypes := [RK.dflt],
                       vars := [{ name := "V1", startpos := 1, endpos := 6,
                                  digits := some 2 }] } [""] 0 = .ok st) :=
  ⟨save_data_short_field_lenient.1 "" 2 (by decide) (by decide),
   save_data_short_field_lenient.2 _ [""] 0 rfl (by decide)⟩

/-- Total number of records written across all output files (`nout` sum). -/
def sumCounts (m : List (RK × List String × Nat)) : Nat :=
  (m.map (fun p => p.2.2)).sum

theorem assocSet_pres {P : RK × List String × Nat → Prop}
    (m : List (RK × List String × Nat)) (k : RK) (v : List String × Nat)
    (hm : ∀ p ∈ m, P p) (hv : P (k, v)) :
    ∀ p ∈ assocSet m k v, P p := by
  induction m with
  | nil => simpa [assocSet] using hv
  | cons p0 rest ih =>
    obtain ⟨k0, v0⟩ := p0
    by_cases h : k = k0
    · subst h
      simp only [assocSet, if_pos rfl]
      intro p hp
      rcases List.mem_cons.mp hp with h1 | h1
      · subst h1; exact hv
      · exact hm p (List.mem_cons_of_mem _ h1)
    · simp only [assocSet, if_neg h]
      intro p hp
      rcases List.mem_cons.mp hp with h1 | h1
      · subst h1; exact hm _ (List.mem_cons_self _ _)
      · exact ih (fun q hq => hm q (List.mem_cons_of_mem _ hq)) p h1

theorem sumCounts_of_allZero (m : List (RK × List String × Nat))
    (hz : ∀ p ∈ m, p.2.2 = 0) : sumCounts m = 0 := by
  induction m with
  | nil => rfl
  | cons p rest ih =>
    simp only [sumCounts, List.map_cons, List.sum_cons, hz p (List.mem_cons_self _ _)]
    simpa [sumCounts] using ih (fun q hq => hz q (List.mem_cons_of_mem _ hq))

theorem sumCounts_initFiles (rts : List RK) : sumCounts (initFiles rts) = 0 := by
  apply sumCounts_of_allZero
  suffices h : ∀ (acc : List (RK × List String × Nat)), (∀ p ∈ acc, p.2.2 = 0) →
      ∀ p ∈ rts.foldl (fun m rt => assocSet m rt ([], 0)) acc, p.2.2 = 0 by
    exact h [] (by simp)
  induction rts with
  | nil => intro acc hacc; simpa using hacc
  | cons r rts ih =>
    intro acc hacc
    exact ih _ (assocSet_pres acc r ([], 0) hacc rfl)

theorem sumCounts_assocSet (m : List (RK × List String × Nat)) (k : RK)
    (ls ls' : List String) (c : Nat) (hg : assocGet m k = some (ls, c)) :
    sumCounts (assocSet m k (ls', c + 1)) = sumCounts m + 1 := by
  induction m with
  | nil => simp [assocGet] at hg
  | cons p0 rest ih =>
    obtain ⟨k0, v0⟩ := p0
    by_cases h : k = k0
    · subst h
      have hv : v0 = (ls, c) := by simpa [assocGet] using hg
      subst hv
      have hset : assocSet ((k, ls, c) :: rest) k (ls', c + 1) = (k, ls', c + 1) :: rest := by
        simp [assocSet]
      rw [hset]
      simp only [sumCounts, List.map_cons, List.sum_cons]
      omega
    · simp only [assocGet, if_neg h] at hg
      have := ih hg
      simp only [sumCounts] at this ⊢
      simp only [assocSet, if_neg h, List.map_cons, List.sum_cons]
      omega

theorem stepData_n_sum (vs : Varspec) (line : String) (st st' : DState)
    (h : stepData vs line st = .ok st') :
    st'.n = st.n + 1 ∧ sumCounts st'.files = sumCounts st.files + 1 := by
  cases hp : processLine vs line with
  | error e => simp [stepData, hp] at h
  | ok p =>
    obtain ⟨rt, outline⟩ := p
    cases hg : assocGet st.files rt with
    | none => simp [stepData, hp, hg] at h
    | some v =>
      obtain ⟨ls, c⟩ := v
      simp only [stepData, hp, hg, Except.ok.injEq] at h
      subst h
      exact ⟨rfl, sumCounts_assocSet st.files rt ls _ c hg⟩

theorem saveDataLoop_props (vs : Varspec) (k : Nat) :
    ∀ (lines : List String) (st st' : DState),
      saveDataLoop vs k st lines = .ok st' →
      (k = 0 → st'.n = st.n + lines.length) ∧
      (st.n < k → k ≤ st.n + lines.length → st'.n = k) ∧
      (sumCounts st'.files + st.n = sumCounts st.files + st'.n) := by
  intro lines
  induction lines with
  | nil =>
    intro st st' h
    simp only [saveDataLoop, Except.ok.injEq] at h
    subst h
    refine ⟨by simp, ?_, by omega⟩
    intro h1 h2
    simp only [List.length_nil] at h2
    omega
  | cons line rest ih =>
    intro st st' h
    cases hstep : stepData vs line st with
    | error e => simp [saveDataLoop, hstep] at h
    | ok st1 =>
      simp only [saveDataLoop, hstep] at h
      obtain ⟨hn1, hs1⟩ := stepData_n_sum vs line st st1 hstep
      by_cases hnk : st1.n = k
      · rw [if_pos hnk] at h
        simp only [Except.ok.injEq] at h
        subst h
        refine ⟨?_, by omega, by omega⟩
        intro h0
        simp only [List.length_cons]
        omega
      · rw [if_neg hnk] at h
        obtain ⟨c1, c2, c3⟩ := ih st1 st' h
        refine ⟨?_, ?_, ?_⟩
        · intro h0
          have := c1 h0
          simp only [List.length_cons]
          omega
        · intro hlt hle
          simp only [List.length_cons] at hle
          exact c2 (by omega) (by omega)
        · omega

/-- C7: if a transcode run completes, a nonzero row cap `maxrows` with at
least that many input lines reads and writes exactly `maxrows` records
(the reported count `n` equals the cap and the per-file written counts sum
to it), while a zero cap processes every available line. -/
theorem save_data_maxrows (vs : Varspec) (lines : List String) (k : Nat)
    (st : DState) (h : save_data vs lines k = .ok st) :
    (k ≠ 0 → k ≤ lines.length → st.n = k) ∧
    (k = 0 → st.n = lines.length) ∧
    sumCounts st.files = st.n := by
  have hp := saveDataLoop_props vs k lines ⟨0, initFiles vs.rectypes⟩ st h
  simp only [show (DState.mk 0 (initFiles vs.rectypes)).n = 0 from rfl,
    show (DState.mk 0 (initFiles vs.rectypes)).files = initFiles vs.rectypes from rfl,
    sumCounts_initFiles, Nat.zero_add, Nat.add_zero] at hp
  exact ⟨fun hk hle => hp.2.1 (by omega) hle, hp.1, hp.2.2⟩

/-- C7, witness: a cap of 3 against 10 available lines reads exactly 3. -/
theorem save_data_maxrows_witness :
    (DState.mk 3 [(RK.dflt, ["1", "2", "3"], 3)]).n = 3 ∧
    sumCounts [(RK.dflt, ["1", "2", "3"], 3)] = 3 := by
  have h := save_data_maxrows
    { mixed := false, rectypes := [RK.dflt],
      vars := [{ name := "V1", startpos := 1, endpos := 1 }] }
    ["1", "2", "3", "4", "5", "6", "7", "8", "9", "0"] 3
    ⟨3, [(RK.dflt, ["1", "2", "3"], 3)]⟩ (by rfl)
  exact ⟨h.1 (by decide) (by decide), h.2.2⟩

/-- C10: in a hierarchical run the transcoder is only total on lines whose
sliced-and-trimmed record-type code was declared: an undeclared code makes
the output-stream lookup `fout[rectype]` fail with an (uncaught) `KeyError`
— the whole run aborts, so the line is neither skipped nor written — while a
declared code makes the very same step succeed. -/
theorem save_data_undeclared_rectype (vs : Varspec) (line : String)
    (rest : List String) (k sp ep : Nat) (a b : String)
    (hm : vs.mixed = true) (hall : ∀ v ∈ vs.vars, v.rectype.isSome)
    (ha : vs.rectype_startpos = some a) (hsp : pyInt a = some sp)
    (hb : vs.rectype_endpos = some b) (hep : pyInt b = some ep) :
    (RK.code (pyStrip (pySlice line ((sp : Int) - 1) (ep : Int))) ∉ vs.rectypes →
       save_data vs (line :: rest) k = .error .keyError) ∧
    (RK.code (pyStrip (pySlice line ((sp : Int) - 1) (ep : Int))) ∈ vs.rectypes →
       ∃ st, stepData vs line ⟨0, initFiles vs.rectypes⟩ = .ok st) := by
  set rt := RK.code (pyStrip (pySlice line ((sp : Int) - 1) (ep : Int))) with hrt
  have hlr : lineRectype vs line = .ok rt := by
    simp [lineRectype, hm, ha, hsp, hb, hep]
  obtain ⟨flds, hbr⟩ := buildRec_mixed_ok line rt vs.vars hall
  have hpl : processLine vs line = .ok (rt, String.intercalate "\t" flds) := by
    simp [processLine, hlr, hm, hbr]
  constructor
  · intro hnot
    have hget : assocGet (initFiles vs.rectypes) rt = none := by
      rw [assocGet_initFiles, if_neg hnot]
    have hstep : stepData vs line ⟨0, initFiles vs.rectypes⟩ = .error .keyError := by
      simp [stepData, hpl, hget]
    simp [save_data, saveDataLoop, hstep]
  · intro hmem
    have hget : assocGet (initFiles vs.rectypes) rt = some ([], 0) := by
      rw [assocGet_initFiles, if_pos hmem]
    exact ⟨⟨1, assocSet (initFiles vs.rectypes) rt ([String.intercalate "\t" flds], 1)⟩,
      by simp [stepData, hpl, hget]⟩

/-- C10, witness. -/
theorem save_data_undeclared_rectype_witness :
    save_data { mixed := true, rectypes := [RK.code "H"],
                rectype_startpos := some "1", rectype_endpos := some "1",
                vars := [{ name := "V1", startpos := 2, endpos := 3,
                           rectype := some "H" }] }
        ["X99"] 0
      = .error .keyError := by
  have h := save_data_undeclared_rectype
    { mixed := true, rectypes := [RK.code "H"],
      rectype_startpos := some "1", rectype_endpos := some "1",
      vars := [{ name := "V1", startpos := 2, endpos := 3, rectype := some "H" }] }
    "X99" [] 0 1 1 "1" "1" rfl (by decide) rfl (by decide) rfl (by decide)
  exact h.1 (by decide)

theorem appendLastLabel_append (ps : List (String × String × String))
    (v val lbl frag : String) :
    appendLastLabel (ps ++ [(v, val, lbl)]) frag = ps ++ [(v, val, lbl ++ frag)] := by
  induction ps with
  | nil => rfl
  | cons p rest ih =>
    cases rest with
    | nil => simp [appendLastLabel]
    | cons q rest' => simpa [appendLastLabel] using ih

/-- C8: while collecting value labels, a continuation line (`+` followed by
a quoted fragment) appends the fragment to the label of the most recently
appended triple; with no triple yet appended the parse fails fatally
(`valspec[-1]` on the empty list raising `IndexError`, which aborts the run
before any triple is produced) — e.g. a `value labels` section whose first
content line is a continuation aborts the whole parse. -/
theorem get_valuelabels_continuation (st : VLState) (line frag : String)
    (h1 : st.status = 1) (hdot : matchDot line = false)
    (hsl : matchSlashVar line = none) (hc : matchContinuation line = some frag) :
    (st.valspec = [] → vlStep st line = .error .indexError) ∧
    (∀ (ps : List (String × String × String)) (v val lbl : String),
       st.valspec = ps ++ [(v, val, lbl)] →
       vlStep st line = .ok { st with valspec := ps ++ [(v, val, lbl ++ frag)] }) ∧
    get_valuelabels ["value labels", " + \"x\""] = .error .indexError := by
  refine ⟨?_, ?_, by rfl⟩
  · intro hemp
    simp [vlStep, h1, hdot, hsl, hc, hemp]
  · intro ps v val lbl hval
    have hne : st.valspec ≠ [] := by rw [hval]; simp
    cases hvs : st.valspec with
    | nil => exact absurd hvs hne
    | cons p rest =>
      have hx : p :: rest = ps ++ [(v, val, lbl)] := hvs.symm.trans hval
      simp only [vlStep, h1, hdot, hsl, hc, hvs, Option.isSome_none, Bool.false_eq_true,
        if_false, Nat.one_ne_zero, if_neg (by decide : ¬ (1 : Nat) = 0)]
      rw [hx, appendLastLabel_append]

/-- C8, witness. -/
theorem get_valuelabels_continuation_witness :
    vlStep ⟨1, [("V1", "1", "Yes")], some "V1"⟩ " + \" more\""
      = .ok ⟨1, [("V1", "1", "Yes more")], some "V1"⟩ ∧
    vlStep ⟨1, [], none⟩ " + \" more\"" = .error .indexError := by
  constructor
  · have h := (get_valuelabels_continuation ⟨1, [("V1", "1", "Yes")], some "V1"⟩
      " + \" more\"" " more" rfl (by decide) (by decide) (by decide)).2.1
      [] "V1" "1" "Yes" rfl
    exact h.trans rfl
  · exact (get_valuelabels_continuation ⟨1, [], none⟩ " + \" more\"" " more"
      rfl (by decide) (by decide) (by decide)).1 rfl

/-- C5, counterexample: `vars` with only the syntax-file argument (3 argv
entries) is short one argument for that mode, yet the program does not
report a usage error — it parses the syntax file and then dies with an
uncaught `IndexError` on `sys.argv[3]`. -/
theorem mainDispatch_vars_missing_arg_cex :
    mainDispatch ["ipums_data_prep.py", "vars", "x.sps"]
        ["data list", " V1 1-5", " ."] []
      = .crash .indexError ∧
    MainResult.crash .indexError ≠ MainResult.usageExit :=
  ⟨by rfl, by decide⟩

/-- C5, amended: only an argument count below 3 produces the usage message
and a clean exit before anything runs; a recognized mode given the syntax
file but missing a later required argument first parses the syntax file
(and for `vals` also the value labels) and then aborts with an uncaught
`IndexError` instead of a usage report. -/
theorem mainDispatch_arg_checks :
    (∀ (argv s d : List String), argv.length < 3 → mainDispatch argv s d = .usageExit) ∧
    (∀ (a0 a2 : String) (s d : List String) (vs : Varspec), get_varspec s = .ok vs →
       mainDispatch [a0, "vars", a2] s d = .crash .indexError) ∧
    (∀ (a0 a2 : String) (s d : List String) (vs : Varspec) vals,
       get_varspec s = .ok vs → get_valuelabels s = .ok vals →
       mainDispatch [a0, "vals", a2] s d = .crash .indexError) ∧
    (∀ (a0 a2 a3 : String) (s d : List String) (vs : Varspec), get_varspec s = .ok vs →
       mainDispatch [a0, "data", a2, a3] s d = .crash .indexError) := by
  refine ⟨?_, ?_, ?_, ?_⟩
  · intro argv s d h
    simp [mainDispatch, h]
  · intro a0 a2 s d vs hvs
    simp [mainDispatch, hvs]
  · intro a0 a2 s d vs vals hvs hvals
    simp [mainDispatch, hvs, hvals]
  · intro a0 a2 a3 s d vs hvs
    simp [mainDispatch, hvs]

/-- C5, witness. -/
theorem mainDispatch_arg_checks_witness :
    mainDispatch ["ipums_data_prep.py", "ddl"] [] [] = .usageExit ∧
    mainDispatch ["ipums_data_prep.py", "data", "x.sps", "y.gz"]
        ["data list", " V1 1-5", " ."] [] = .crash .indexError := by
  constructor
  · exact mainDispatch_arg_checks.1 ["ipums_data_prep.py", "ddl"] [] [] (by decide)
  · exact mainDispatch_arg_checks.2.2.2 "ipums_data_prep.py" "x.sps" "y.gz"
      ["data list", " V1 1-5", " ."] []
      { mixed := false, rectypes := [RK.dflt],
        vars := [{ name := "V1", startpos := 1, endpos := 5 }] } (by rfl)

theorem mem_addKey_self (l : List RK) (k : RK) : k ∈ addKey l k := by
  by_cases h : k ∈ l <;> simp [addKey, h]

theorem mem_addKey_of_mem {l : List RK} {k0 : RK} (k : RK) (h : k0 ∈ l) :
    k0 ∈ addKey l k := by
  by_cases hk : k ∈ l <;> simp [addKey, hk, h]

/-- The invariant maintained by the first scanning loop of `get_varspec`:
in a flat parse nothing hierarchical is ever set and no variable is
declared before the `data list` status; a current record type is always
registered; every variable's record type is registered; in a hierarchical
parse a current record type exists whenever variables can be declared, and
every declared variable carries one. -/
structure P1Inv (st : P1State) : Prop where
  flat_none : st.mixed = false →
    st.thisrec = none ∧ st.rectypes = [] ∧ ∀ v ∈ st.vars, v.rectype = none
  flat_early : st.mixed = false → (st.status = .wait ∨ st.status = .mixedSt) →
    st.vars = []
  thisrec_mem : ∀ r, st.thisrec = some r → RK.code r ∈ st.rectypes
  vars_mem : ∀ v ∈ st.vars, ∀ r, v.rectype = some r → RK.code r ∈ st.rectypes
  mixed_thisrec : st.mixed = true → (st.status = .wait ∨ st.status = .dataList) →
    st.thisrec.isSome
  mixed_vars : st.mixed = true → ∀ v ∈ st.vars, v.rectype.isSome
  rectypeSt_mixed : st.status = .rectypeSt → st.mixed = true

theorem p1Inv_init : P1Inv {} := by
  constructor <;> simp

theorem p1Step_inv (st st' : P1State) (line : String) (hI : P1Inv st)
    (h : p1Step st line = .ok st') : P1Inv st' := by
  obtain ⟨i1, i2, i3, i4, i5, i6, i7⟩ := hI
  cases hstat : st.status with
  | wait =>
    rw [hstat] at i2 i5 i7
    simp only [p1Step, hstat] at h
    by_cases hd : containsLit line "data list"
    · rw [if_pos hd, Except.ok.injEq] at h
      subst h
      refine ⟨i1, by simp, i3, i4, ?_, i6, by simp⟩
      intro hm _
      exact i5 hm (Or.inl rfl)
    · rw [if_neg hd] at h
      by_cases hf : containsLit line "file type mixed"
      · rw [if_pos hf, Except.ok.injEq] at h
        subst h
        refine ⟨i1, ?_, i3, i4, by simp, i6, by simp⟩
        intro hm _
        exact i2 hm (Or.inl rfl)
      · rw [if_neg hf, Except.ok.injEq] at h
        subst h
        exact ⟨i1, fun hm hs => i2 hm (by simpa [hstat] using Or.inl rfl),
               i3, i4, fun hm hs => i5 hm (Or.inl rfl), i6, by simp [hstat]⟩
  | mixedSt =>
    rw [hstat] at i2 i5 i7
    simp only [p1Step, hstat] at h
    by_cases hr : containsLit line "/record"
    · rw [if_pos hr] at h
      cases hs : searchRecordSpec line with
      | none => rw [hs] at h; cases h
      | some p =>
        obtain ⟨g1, g2⟩ := p
        rw [hs, Except.ok.injEq] at h
        subst h
        have hvars : st.vars = [] ∨ st.mixed = true := by
          by_cases hm : st.mixed
          · exact Or.inr hm
          · exact Or.inl (i2 (by simpa using hm) (Or.inr rfl))
        refine ⟨by simp, by simp, i3, i4, by simp, ?_, by simp⟩
        intro _ v hv
        rcases hvars with hv0 | hv0
        · rw [hv0] at hv; cases hv
        · exact i6 hv0 v hv
    · rw [if_neg hr, Except.ok.injEq] at h
      subst h
      exact ⟨i1, fun hm hs => i2 hm (by simpa [hstat] using Or.inr rfl),
             i3, i4, by simp [hstat], i6, by simp [hstat]⟩
  | rectypeSt =>
    rw [hstat] at i2 i5 i7
    have hmix : st.mixed = true := i7 rfl
    simp only [p1Step, hstat] at h
    by_cases hr : containsLit line "record type"
    · rw [if_pos hr] at h
      cases hs : searchRectype line with
      | none => rw [hs] at h; cases h
      | some r =>
        rw [hs, Except.ok.injEq] at h
        subst h
        refine ⟨by simp [hmix], by simp [hmix], ?_, ?_, by simp, by simpa using i6, by simp⟩
        · intro r' hr'
          simp only [Option.some_inj] at hr'
          subst hr'
          exact mem_addKey_self _ _
        · intro v hv r' hr'
          exact mem_addKey_of_mem _ (i4 v hv r' hr')
    · rw [if_neg hr] at h
      by_cases he : containsLit line "end file type"
      · rw [if_pos he, Except.ok.injEq] at h
        subst h
        exact ⟨by simp [hmix], by simp [hmix], i3, i4, by simp, i6, by simp⟩
      · rw [if_neg he, Except.ok.injEq] at h
        subst h
        exact ⟨by simp [hmix], by simp [hmix], i3, i4, by simp [hstat], i6, by simp [hstat, hmix]⟩
  | dataList =>
    rw [hstat] at i2 i5 i7
    simp only [p1Step, hstat] at h
    by_cases hd : matchDot line
    · rw [if_pos hd] at h
      cases htr : st.thisrec with
      | none =>
        rw [htr] at h
        simp only [Except.ok.injEq] at h
        subst h
        exact ⟨fun hm => ⟨rfl, (i1 hm).2.1, (i1 hm).2.2⟩, by simp, by simp, i4, by simp, i6,
               by simp⟩
      | some r =>
        rw [htr] at h
        simp only [Except.ok.injEq] at h
        subst h
        have hmix : st.mixed = true := by
          by_cases hm : st.mixed
          · exact hm
          · exact absurd htr (by simp [(i1 (by simpa using hm)).1])
        exact ⟨by simp [hmix], by simp [hmix], fun r' hr' => i3 r' (htr.trans hr'), i4,
               by simp, i6, fun _ => hmix⟩
    · rw [if_neg hd] at h
      cases hv : matchVarDecl line with
      | none => rw [hv] at h; cases h
      | some q =>
        obtain ⟨nm, sp, epOpt, flag⟩ := q
        rw [hv] at h
        simp only [Except.ok.injEq] at h
        subst h
        refine ⟨?_, by simp, i3, ?_, fun hm hs => i5 hm (Or.inr rfl), ?_, by simp⟩
        · intro hm
          obtain ⟨htr, hrts, hnone⟩ := i1 hm
          refine ⟨htr, hrts, ?_⟩
          intro v hvmem
          rcases List.mem_append.mp hvmem with h1 | h1
          · exact hnone v h1
          · simp only [List.mem_singleton] at h1
            subst h1
            exact htr
        · intro v hvmem r hr
          rcases List.mem_append.mp hvmem with h1 | h1
          · exact i4 v h1 r hr
          · simp only [List.mem_singleton] at h1
            subst h1
            exact i3 r hr
        · intro hm v hvmem
          rcases List.mem_append.mp hvmem with h1 | h1
          · exact i6 hm v h1
          · simp only [List.mem_singleton] at h1
            subst h1
            exact i5 hm (Or.inr rfl)
  | doneSt =>
    rw [hstat] at i2 i5 i7
    simp only [p1Step, hstat, Except.ok.injEq] at h
    subst h
    exact ⟨i1, fun hm hs => by simp [hstat] at hs, i3, i4, by simp [hstat], i6, by simp [hstat]⟩

theorem p1Loop_inv : ∀ (lines : List String) (st st' : P1State) (rest : List String),
    P1Inv st → p1Loop st lines = .ok (st', rest) → P1Inv st' := by
  intro lines
  induction lines with
  | nil =>
    intro st st' rest hI h
    simp only [p1Loop, Except.ok.injEq, Prod.mk.injEq] at h
    rw [← h.1]
    exact hI
  | cons line restL ih =>
    intro st st' rest hI h
    simp only [p1Loop] at h
    by_cases hdone : st.status = .doneSt
    · rw [if_pos hdone] at h
      simp only [Except.ok.injEq, Prod.mk.injEq] at h
      rw [← h.1]
      exact hI
    · rw [if_neg hdone] at h
      cases hstep : p1Step st line with
      | error e => rw [hstep] at h; cases h
      | ok st1 =>
        rw [hstep] at h
        exact ih st1 st' rest (p1Step_inv st st1 line hI hstep) h

theorem attachLabel_shape : ∀ (vars : List PyVar) (nm lbl : String) (v' : PyVar),
    v' ∈ attachLabel vars nm lbl → ∃ v ∈ vars, v'.rectype = v.rectype := by
  intro vars
  induction vars with
  | nil => intro nm lbl v' h; cases h
  | cons v rest ih =>
    intro nm lbl v' h
    by_cases hn : v.name = nm
    · simp only [attachLabel, if_pos hn] at h
      rcases List.mem_cons.mp h with h1 | h1
      · exact ⟨v, List.mem_cons_self _ _, by rw [h1]⟩
      · exact ⟨v', List.mem_cons_of_mem _ h1, rfl⟩
    · simp only [attachLabel, if_neg hn] at h
      rcases List.mem_cons.mp h with h1 | h1
      · exact ⟨v, List.mem_cons_self _ _, by rw [h1]⟩
      · obtain ⟨v0, hv0, heq⟩ := ih nm lbl v' h1
        exact ⟨v0, List.mem_cons_of_mem _ hv0, heq⟩

theorem p2Loop_shape : ∀ (lines : List String) (vars : List PyVar) (status : Nat)
    (vars' : List PyVar), p2Loop vars status lines = .ok vars' →
    ∀ v' ∈ vars', ∃ v ∈ vars, v'.rectype = v.rectype := by
  intro lines
  induction lines with
  | nil =>
    intro vars status vars' h v' hv'
    simp only [p2Loop, Except.ok.injEq] at h
    subst h
    exact ⟨v', hv', rfl⟩
  | cons line rest ih =>
    intro vars status vars' h v' hv'
    simp only [p2Loop] at h
    by_cases h2 : status = 2
    · rw [if_pos h2] at h
      simp only [Except.ok.injEq] at h
      subst h
      exact ⟨v', hv', rfl⟩
    · rw [if_neg h2] at h
      by_cases h0 : status = 0
      · rw [if_pos h0] at h
        by_cases hvl : containsLit line "variable labels"
        · rw [if_pos hvl] at h
          exact ih vars 1 vars' h v' hv'
        · rw [if_neg hvl] at h
          exact ih vars 0 vars' h v' hv'
      · rw [if_neg h0] at h
        by_cases hd : matchDot line
        · rw [if_pos hd] at h
          exact ih vars 2 vars' h v' hv'
        · rw [if_neg hd] at h
          cases hm : matchLabelLine line with
          | none => rw [hm] at h; cases h
          | some p =>
            obtain ⟨nm, lbl⟩ := p
            rw [hm] at h
            obtain ⟨v0, hv0, heq⟩ := ih _ 1 vars' h v' hv'
            obtain ⟨v1, hv1, heq1⟩ := attachLabel_shape vars nm lbl v0 hv0
            exact ⟨v1, hv1, heq.trans heq1⟩

/-- C2: for every syntax file the layout parser accepts: a flat layout
yields exactly the one placeholder record type and no variable carries a
record type; a hierarchical layout gives every variable a record type that
is a member of the parsed record-type set. -/
theorem get_varspec_rectype_inv (lines : List String) (vs : Varspec)
    (h : get_varspec lines = .ok vs) :
    (vs.mixed = false → vs.rectypes = [RK.dflt] ∧ ∀ v ∈ vs.vars, v.rectype = none) ∧
    (vs.mixed = true →
      ∀ v ∈ vs.vars, ∃ r, v.rectype = some r ∧ RK.code r ∈ vs.rectypes) := by
  unfold get_varspec at h
  cases hp1 : p1Loop {} lines with
  | error e => rw [hp1] at h; cases h
  | ok p =>
    obtain ⟨st, rest⟩ := p
    rw [hp1] at h
    cases hp2 : p2Loop st.vars 0 rest with
    | error e => simp only [hp2] at h; cases h
    | ok vars' =>
      simp only [hp2, Except.ok.injEq] at h
      subst h
      have hI := p1Loop_inv lines {} st rest p1Inv_init hp1
      have hshape := p2Loop_shape rest st.vars 0 vars' hp2
      constructor
      · intro hflat
        simp only at hflat
        obtain ⟨htr, hrts, hnone⟩ := hI.flat_none hflat
        refine ⟨by simp [hrts], ?_⟩
        intro v hv
        simp only at hv
        obtain ⟨v0, hv0, heq⟩ := hshape v hv
        rw [heq]
        exact hnone v0 hv0
      · intro hmix
        simp only at hmix
        intro v hv
        simp only at hv
        obtain ⟨v0, hv0, heq⟩ := hshape v hv
        have hsome := hI.mixed_vars hmix v0 hv0
        obtain ⟨r, hr⟩ := Option.isSome_iff_exists.mp hsome
        have hmem := hI.vars_mem v0 hv0 r hr
        have hne : ¬ st.rectypes = [] := by
          intro hem
          rw [hem] at hmem
          cases hmem
        exact ⟨r, heq.trans hr, by simp only [if_neg hne]; exact hmem⟩

/-- C2, witness: a concrete hierarchical syntax file whose two variables
carry record types `H` and `P`, both members of the parsed set. -/
theorem get_varspec_rectype_inv_witness :
    ∃ r, (PyVar.mk "V1" 2 5 (some "H") none false (some 2)).rectype = some r ∧
      RK.code r ∈ [RK.code "H", RK.code "P"] := by
  have h := get_varspec_rectype_inv
    ["file type mixed", " /record = 1", "record type \"H\"", "data list",
     " V1 2-5 (2)", " .", "record type \"P\"", "data list", " V2 2-3 (a)",
     " .", "end file type"]
    { mixed := true, rectypes := [RK.code "H", RK.code "P"],
      rectype_startpos := some "1", rectype_endpos := some "",
      vars := [⟨"V1", 2, 5, some "H", none, false, some 2⟩,
               ⟨"V2", 2, 3, some "P", none, true, none⟩] }
    (by rfl)
  exact h.2 rfl ⟨"V1", 2, 5, some "H", none, false, some 2⟩ (List.mem_cons_self _ _)

/-! ## C6: declaration order is preserved by every consumer -/

theorem nil_strAppend (s : String) : "" ++ s = s := rfl

/-- Right-fold concatenation of strings (used only to state order
properties; the source never joins this way). -/
def strJoin : List String → String
  | [] => ""
  | s :: rest => s ++ strJoin rest

theorem strJoin_single (s : String) : strJoin [s] = s := by
  show s ++ "" = s
  exact strAppend_nilR s

theorem foldl_append_map (f : PyVar → String) :
    ∀ (l : List PyVar) (acc : List String),
      l.foldl (fun a v => a ++ [f v]) acc = acc ++ l.map f := by
  intro l
  induction l with
  | nil => intro acc; simp
  | cons v rest ih => intro acc; simp [ih]

/-- The variable-label writer emits one row per variable in declaration
order. -/
theorem save_vars_order (vs : Varspec) : save_vars vs = vs.vars.map varsLine := by
  simpa [save_vars] using foldl_append_map varsLine vs.vars []

/-- The transcoder's per-record loop keeps exactly the matching variables,
in declaration order. -/
theorem buildRec_order (mixed : Bool) (line : String) (rt : RK) :
    ∀ (vars : List PyVar) (flds : List String),
      buildRec mixed line rt vars = .ok flds →
      flds = (vars.filter (recMatch mixed rt)).map (fldValue line) := by
  intro vars
  induction vars with
  | nil =>
    intro flds h
    simp only [buildRec, Except.ok.injEq] at h
    subst h
    rfl
  | cons v rest ih =>
    intro flds h
    simp only [buildRec] at h
    by_cases hk : mixed && v.rectype.isNone
    · rw [if_pos hk] at h; cases h
    · rw [if_neg hk] at h
      cases hb : buildRec mixed line rt rest with
      | error e => rw [hb] at h; cases h
      | ok flds' =>
        rw [hb] at h
        simp only [Except.ok.injEq] at h
        subst h
        by_cases hrm : recMatch mixed rt v
        · simp [List.filter_cons, hrm, ih flds' hb]
        · simp [List.filter_cons, hrm, ih flds' hb]

theorem ends_comma_append (a b : String) (h : ∃ t, b = t ++ ",\n") :
    ∃ t, a ++ b = t ++ ",\n" := by
  obtain ⟨t, ht⟩ := h
  exact ⟨a ++ t, by rw [ht, strAppend_assoc]⟩

theorem colLine_split (v : PyVar) : ∃ t, colLine v = t ++ ",\n" := by
  unfold colLine
  by_cases h1 : v.alpha <;> by_cases h2 : v.digits.isSome <;>
    by_cases h3 : (1 + (v.endpos : Int) - (v.startpos : Int)) > 9 <;>
      simp only [h1, h2, h3, if_true, if_false, ite_true, ite_false,
        Bool.false_eq_true] <;>
      first
        | exact ends_comma_append _ _ (ends_comma_append _ _ ⟨")", rfl⟩)
        | exact ends_comma_append _ _ ⟨"double precision", rfl⟩
        | exact ends_comma_append _ _ ⟨"bigint", rfl⟩
        | exact ends_comma_append _ _ ⟨"int", rfl⟩

theorem pyChop_append_comma (a : String) : pyChop (a ++ ",\n") = a := by
  apply strExt
  show ((a ++ ",\n").data.take ((a ++ ",\n").data.length - 2)) = a.data
  rw [strData_append]
  have hl : (a.data ++ (",\n").data).length - 2 = a.data.length := by
    simp [List.length_append]
  rw [hl]
  simpa using List.take_left a.data (",\n").data

/-- Each variable's column text ends in a comma-newline; the join of a
nonempty column list therefore does too. -/
theorem cols_join_ends (v : PyVar) :
    ∀ rest : List PyVar, ∃ t, colLine v ++ strJoin (rest.map colLine) = t ++ ",\n" := by
  intro rest
  induction rest generalizing v with
  | nil =>
    obtain ⟨t, ht⟩ := colLine_split v
    exact ⟨t, by simpa [strJoin, strAppend_nilR] using ht⟩
  | cons w ws ih =>
    obtain ⟨t, ht⟩ := ih w
    refine ⟨colLine v ++ t, ?_⟩
    simp only [List.map_cons, strJoin, ht, ← strAppend_assoc]

theorem ddlLoop_flat :
    ∀ (vars : List PyVar), (∀ v ∈ vars, v.rectype = none) →
      ∀ (rt : Option String) (s : String) (i : Nat), i ≠ 0 →
        ddlLoop vars rt s i = s ++ strJoin (vars.map colLine) := by
  intro vars
  induction vars with
  | nil => intro _ rt s i _; simp [ddlLoop, strJoin, strAppend_nilR]
  | cons v rest ih =>
    intro hall rt s i hi
    have hv : v.rectype = none := hall v (List.mem_cons_self _ _)
    simp only [ddlLoop, hv, if_neg hi]
    rw [ih (fun w hw => hall w (List.mem_cons_of_mem _ hw)) rt (s ++ colLine v) (i + 1)
      (by omega)]
    simp [List.map_cons, strJoin, strAppend_assoc]

/-- Flat DDL: one `ipumsdata` table whose column lines are the map of
`colLine` over the variables, in declaration order. -/
theorem get_data_ddl_flat (vs : Varspec) (hne : vs.vars ≠ [])
    (hall : ∀ v ∈ vs.vars, v.rectype = none) :
    get_data_ddl vs
      = "create table ipumsdata (\n" ++
          (pyChop (strJoin (vs.vars.map colLine)) ++ "\n);\n") := by
  obtain ⟨v, rest, hv⟩ := List.exists_cons_of_ne_nil hne
  unfold get_data_ddl
  rw [hv]
  have hvr : v.rectype = none := hall v (by rw [hv]; exact List.mem_cons_self _ _)
  simp only [ddlLoop, hvr, reduceIte]
  rw [ddlLoop_flat rest (fun w hw => hall w (by rw [hv]; exact List.mem_cons_of_mem _ hw))
    none _ 1 (by omega)]
  obtain ⟨t, ht⟩ := cols_join_ends v rest
  have h1 : ("create table ipumsdata (\n" ++ colLine v) ++ strJoin (rest.map colLine)
      = ("create table ipumsdata (\n" ++ t) ++ ",\n" := by
    rw [strAppend_assoc, ht, ← strAppend_assoc]
  rw [h1, pyChop_append_comma]
  have h2 : strJoin (((v :: rest)).map colLine) = t ++ ",\n" := by
    simpa [List.map_cons, strJoin] using ht
  rw [h2, pyChop_append_comma]
  apply strExt
  simp [strData_append]

/-- `"create table R (\n"`, the table header emitted by `get_data_ddl`. -/
def tblHdr (r : String) : String := "create table " ++ r ++ " (\n"

/-- One finished create-table statement for a run of consecutive variables
of one record type: header, their column lines joined in order with the
trailing comma of the last one chopped, and the closer. -/
def renderTable (p : String × List PyVar) : String :=
  tblHdr p.1 ++ (pyChop (strJoin (p.2.map colLine)) ++ "\n);\n")

/-- How the remaining loop renders from an open table `r` whose emitted
column text so far is `C`. -/
def renderFrom (r : String) (C : String) : List PyVar → String
  | [] => tblHdr r ++ (pyChop C ++ "\n);\n")
  | v :: rest =>
    if v.rectype.getD "" = r then renderFrom r (C ++ colLine v) rest
    else (tblHdr r ++ (pyChop C ++ "\n);\n")) ++ renderFrom (v.rectype.getD "") (colLine v) rest

/-- Prepend a partial run to a run decomposition, merging with the first
run when the record types agree. -/
def mergeRuns (p : String × List PyVar) : List (String × List PyVar) → List (String × List PyVar)
  | [] => [p]
  | (r', g') :: rest => if r' = p.1 then (p.1, p.2 ++ g') :: rest else p :: (r', g') :: rest

/-- The maximal runs of consecutive variables sharing a record type, in
order. -/
def groupRuns : List PyVar → List (String × List PyVar)
  | [] => []
  | v :: rest => mergeRuns (v.rectype.getD "", [v]) (groupRuns rest)

def flattenGroups : List (String × List PyVar) → List PyVar
  | [] => []
  | p :: rest => p.2 ++ flattenGroups rest

theorem flattenGroups_mergeRuns (p : String × List PyVar)
    (X : List (String × List PyVar)) :
    flattenGroups (mergeRuns p X) = p.2 ++ flattenGroups X := by
  cases X with
  | nil => simp [mergeRuns, flattenGroups]
  | cons q rest =>
    obtain ⟨r', g'⟩ := q
    by_cases h : r' = p.1 <;> simp [mergeRuns, flattenGroups, h, List.append_assoc]

theorem flattenGroups_groupRuns : ∀ l : List PyVar, flattenGroups (groupRuns l) = l := by
  intro l
  induction l with
  | nil => rfl
  | cons v rest ih => simp [groupRuns, flattenGroups_mergeRuns, ih]

theorem strJoin_map_append (g : List String) (x : String) :
    strJoin (g ++ [x]) = strJoin g ++ x := by
  induction g with
  | nil => simp [strJoin, strAppend_nilR, nil_strAppend]
  | cons s rest ih => simp [strJoin, ih, strAppend_assoc]

theorem mergeRuns_merge (r : String) (g : List PyVar) (v : PyVar)
    (X : List (String × List PyVar)) :
    mergeRuns (r, g ++ [v]) X = mergeRuns (r, g) (mergeRuns (r, [v]) X) := by
  cases X with
  | nil => simp [mergeRuns]
  | cons q rest =>
    obtain ⟨r', g'⟩ := q
    by_cases h : r' = r
    · subst h
      simp [mergeRuns, List.append_assoc]
    · simp [mergeRuns, h]

theorem groupRuns_cons_shape (v : PyVar) (rest : List PyVar) :
    ∃ gh gt, groupRuns (v :: rest) = (v.rectype.getD "", gh) :: gt := by
  show ∃ gh gt, mergeRuns (v.rectype.getD "", [v]) (groupRuns rest) = _
  cases hX : groupRuns rest with
  | nil => exact ⟨[v], [], rfl⟩
  | cons q tail =>
    obtain ⟨r', g'⟩ := q
    by_cases h : r' = v.rectype.getD ""
    · exact ⟨[v] ++ g', tail, by simp [mergeRuns, h]⟩
    · exact ⟨[v], (r', g') :: tail, by simp [mergeRuns, h]⟩

theorem renderFrom_groups :
    ∀ (vars : List PyVar) (r : String) (g : List PyVar),
      renderFrom r (strJoin (g.map colLine)) vars
        = strJoin ((mergeRuns (r, g) (groupRuns vars)).map renderTable) := by
  intro vars
  induction vars with
  | nil =>
    intro r g
    show tblHdr r ++ (pyChop (strJoin (g.map colLine)) ++ "\n);\n")
      = strJoin [renderTable (r, g)]
    rw [strJoin_single]
    rfl
  | cons v rest ih =>
    intro r g
    by_cases h : v.rectype.getD "" = r
    · rw [show renderFrom r (strJoin (g.map colLine)) (v :: rest)
          = renderFrom r (strJoin (g.map colLine) ++ colLine v) rest from by
            simp [renderFrom, h]]
      rw [show strJoin (g.map colLine) ++ colLine v
          = strJoin ((g ++ [v]).map colLine) from by
            rw [List.map_append, List.map_singleton, strJoin_map_append]]
      rw [ih r (g ++ [v])]
      rw [show groupRuns (v :: rest) = mergeRuns (r, [v]) (groupRuns rest) from by
        simp [groupRuns, h]]
      rw [mergeRuns_merge]
    · rw [show renderFrom r (strJoin (g.map colLine)) (v :: rest)
          = (tblHdr r ++ (pyChop (strJoin (g.map colLine)) ++ "\n);\n")) ++
              renderFrom (v.rectype.getD "") (colLine v) rest from by
            simp [renderFrom, h]]
      rw [show colLine v = strJoin ([v].map colLine) from by
        simp [List.map_singleton, strJoin_single]]
      rw [ih (v.rectype.getD "") [v]]
      obtain ⟨gh, gt, hgr⟩ := groupRuns_cons_shape v rest
      rw [show mergeRuns (v.rectype.getD "", [v]) (groupRuns rest) = groupRuns (v :: rest)
        from rfl]
      rw [hgr]
      rw [show mergeRuns (r, g) ((v.rectype.getD "", gh) :: gt)
          = (r, g) :: (v.rectype.getD "", gh) :: gt from by
            simp [mergeRuns]
            intro hx
            exact absurd hx h]
      rfl

theorem ddlLoop_hier :
    ∀ (vars : List PyVar), (∀ v ∈ vars, v.rectype.isSome) →
      ∀ (r D C : String) (i : Nat), (∃ t, C = t ++ ",\n") →
        pyChop (ddlLoop vars (some r) (D ++ (tblHdr r ++ C)) i) ++ "\n);\n"
          = D ++ renderFrom r C vars := by
  intro vars
  induction vars with
  | nil =>
    intro _ r D C i hC
    obtain ⟨t, ht⟩ := hC
    subst ht
    have hA : D ++ (tblHdr r ++ (t ++ ",\n")) = (D ++ (tblHdr r ++ t)) ++ ",\n" := by
      apply strExt; simp [strData_append]
    simp only [ddlLoop, renderFrom]
    rw [hA, pyChop_append_comma, pyChop_append_comma]
    apply strExt
    simp [strData_append]
  | cons v rest ih =>
    intro hall r D C i hC
    obtain ⟨rv, hrv⟩ := Option.isSome_iff_exists.mp (hall v (List.mem_cons_self _ _))
    have hall' : ∀ w ∈ rest, w.rectype.isSome :=
      fun w hw => hall w (List.mem_cons_of_mem _ hw)
    simp only [ddlLoop, hrv]
    by_cases heq : r = rv
    · subst heq
      rw [if_neg (by simp)]
      have hs : (D ++ (tblHdr r ++ C)) ++ colLine v = D ++ (tblHdr r ++ (C ++ colLine v)) := by
        apply strExt; simp [strData_append]
      rw [hs, ih hall' r D (C ++ colLine v) (i + 1)
        (ends_comma_append C (colLine v) (colLine_split v))]
      have hrf : renderFrom r C (v :: rest) = renderFrom r (C ++ colLine v) rest := by
        simp [renderFrom, hrv]
      rw [hrf]
    · rw [if_pos (by simp [Ne, heq])]
      obtain ⟨t, ht⟩ := hC
      have hchop : pyChop (D ++ (tblHdr r ++ C)) = D ++ (tblHdr r ++ t) := by
        rw [ht]
        have hA : D ++ (tblHdr r ++ (t ++ ",\n")) = (D ++ (tblHdr r ++ t)) ++ ",\n" := by
          apply strExt; simp [strData_append]
        rw [hA, pyChop_append_comma]
      have hs : (pyChop (D ++ (tblHdr r ++ C)) ++ "\n);\ncreate table " ++ rv ++ " (\n")
            ++ colLine v
          = (D ++ (tblHdr r ++ (pyChop C ++ "\n);\n"))) ++ (tblHdr rv ++ colLine v) := by
        rw [hchop, ht, pyChop_append_comma]
        apply strExt
        simp [strData_append, tblHdr]
      rw [hs, ih hall' rv (D ++ (tblHdr r ++ (pyChop C ++ "\n);\n"))) (colLine v) (i + 1)
        (colLine_split v)]
      have hrf : renderFrom r C (v :: rest)
          = (tblHdr r ++ (pyChop C ++ "\n);\n")) ++ renderFrom rv (colLine v) rest := by
        simp only [renderFrom, hrv, Option.getD_some]
        rw [if_neg (fun h => heq h.symm)]
      rw [hrf]
      apply strExt
      simp [strData_append]

/-- Hierarchical DDL: one create-table statement per run of consecutive
variables of one record type, columns in declaration order within each. -/
theorem get_data_ddl_hier (vs : Varspec) (hne : vs.vars ≠ [])
    (hall : ∀ v ∈ vs.vars, v.rectype.isSome) :
    get_data_ddl vs = strJoin ((groupRuns vs.vars).map renderTable) := by
  obtain ⟨v, rest, hv⟩ := List.exists_cons_of_ne_nil hne
  obtain ⟨rv, hrv⟩ := Option.isSome_iff_exists.mp
    (hall v (by rw [hv]; exact List.mem_cons_self _ _))
  unfold get_data_ddl
  rw [hv]
  simp only [ddlLoop, hrv]
  have hs : ("create table " ++ rv ++ " (\n") ++ colLine v
      = "" ++ (tblHdr rv ++ colLine v) := by
    apply strExt; simp [strData_append, tblHdr]
  rw [hs, ddlLoop_hier rest
    (fun w hw => hall w (by rw [hv]; exact List.mem_cons_of_mem _ hw))
    rv "" (colLine v) 1 (colLine_split v), nil_strAppend]
  rw [show colLine v = strJoin ([v].map colLine) from by
    simp [List.map_singleton, strJoin_single]]
  rw [renderFrom_groups rest rv [v]]
  congr 1
  simp [groupRuns, hrv]

/-- C6: declaration order is preserved by every consumer of the parsed
specification.  The DDL generator's output is the run-by-run render whose
columns are `colLine` mapped over the variables in order (flat: one table;
hierarchical: one table per run, and the runs flatten back to the original
order); the variable-label writer emits exactly one row per variable in
order; the transcoder's record is the in-order map of the field values over
the variables of the record's record type. -/
theorem declaration_order (vs : Varspec) :
    (vs.vars ≠ [] → (∀ v ∈ vs.vars, v.rectype = none) →
       get_data_ddl vs = "create table ipumsdata (\n" ++
         (pyChop (strJoin (vs.vars.map colLine)) ++ "\n);\n")) ∧
    (vs.vars ≠ [] → (∀ v ∈ vs.vars, v.rectype.isSome) →
       get_data_ddl vs = strJoin ((groupRuns vs.vars).map renderTable) ∧
       flattenGroups (groupRuns vs.vars) = vs.vars) ∧
    (save_vars vs = vs.vars.map varsLine) ∧
    (∀ (line : String) (rt : RK) (flds : List String),
       buildRec vs.mixed line rt vs.vars = .ok flds →
       flds = (vs.vars.filter (recMatch vs.mixed rt)).map (fldValue line)) :=
  ⟨fun hne hall => get_data_ddl_flat vs hne hall,
   fun hne hall => ⟨get_data_ddl_hier vs hne hall, flattenGroups_groupRuns vs.vars⟩,
   save_vars_order vs,
   fun line rt flds h => buildRec_order vs.mixed line rt vs.vars flds h⟩

/-- C6, witness: a hierarchical specification with runs `H`, `H`, `P`. -/
theorem declaration_order_witness :
    (["12", "34"] : List String)
        = (([⟨"H1", 2, 3, some "H", none, false, none⟩,
             ⟨"H2", 4, 5, some "H", none, false, none⟩,
             ⟨"P1", 2, 2, some "P", none, false, none⟩] : List PyVar).filter
              (recMatch true (RK.code "H"))).map (fldValue "H1234") ∧
    save_vars { mixed := true, rectypes := [RK.code "H", RK.code "P"],
                rectype_startpos := some "1", rectype_endpos := some "1",
                vars := [⟨"H1", 2, 3, some "H", none, false, none⟩,
                         ⟨"H2", 4, 5, some "H", none, false, none⟩,
                         ⟨"P1", 2, 2, some "P", none, false, none⟩] }
      = ([⟨"H1", 2, 3, some "H", none, false, none⟩,
          ⟨"H2", 4, 5, some "H", none, false, none⟩,
          ⟨"P1", 2, 2, some "P", none, false, none⟩] : List PyVar).map varsLine ∧
    flattenGroups (groupRuns
        [⟨"H1", 2, 3, some "H", none, false, none⟩,
         ⟨"H2", 4, 5, some "H", none, false, none⟩,
         ⟨"P1", 2, 2, some "P", none, false, none⟩])
      = [⟨"H1", 2, 3, some "H", none, false, none⟩,
         ⟨"H2", 4, 5, some "H", none, false, none⟩,
         ⟨"P1", 2, 2, some "P", none, false, none⟩] := by
  have h := declaration_order
    { mixed := true, rectypes := [RK.code "H", RK.code "P"],
      rectype_startpos := some "1", rectype_endpos := some "1",
      vars := [⟨"H1", 2, 3, some "H", none, false, none⟩,
               ⟨"H2", 4, 5, some "H", none, false, none⟩,
               ⟨"P1", 2, 2, some "P", none, false, none⟩] }
  exact ⟨h.2.2.2 "H1234" (RK.code "H") ["12", "34"] (by rfl), h.2.2.1,
         (h.2.1 (by decide) (by decide)).2⟩
